import Mathlib

/-!
Verification development for the GMB scraper (gmb_scraper.py).

The Python program is shallowly embedded as pure Lean functions:

* `parse_gmb_listing` mirrors the listing-fragment parser.  A rendered DOM
  fragment is modelled by `Fragment`: the optional text of the name
  sub-element, the optional text of the rating sub-element, and the list of
  texts of the direct child div blocks.  The regular-expression searches of
  the source are modelled by specialised, executable matchers that reproduce
  the leftmost-match and backtracking order of the Python `re` module for
  the exact patterns appearing in the source.  The `float` conversion of a
  captured literal of shape digit-dot-digit is modelled as the exact
  rational d1 + d2/10.
* `handle_captcha` mirrors the CAPTCHA polling loop, discretised over poll
  indices: `present i` tells whether the reCAPTCHA iframe is present at the
  i-th poll, `maxPolls` is the number of loop iterations permitted by the
  configured timeout and check interval.  The result carries the returned
  boolean together with the number of alert notifications sent.
* `processKeyword` and `runKeywords` mirror the per-keyword block of the
  main loop (search box, captcha check, more-businesses button, pagination)
  and the iteration over the keyword list.  `scrapePages` mirrors the
  pagination loop with its fixed page budget `MAX_GMB_PAGES_TO_SCRAPE`.
* `save_completed_keyword` / `load_completed_keywords` mirror the progress
  file: the file is `none` when missing, otherwise its character content;
  saving appends the keyword plus a newline, loading reads the content in
  Python text mode with universal newlines (a line ends at a line feed, a
  carriage return, or a carriage-return line-feed pair), strips each line
  and forms the set of results.
-/

namespace GMB

/-! ### Characters and Python string helpers -/

/-- The whitespace characters recognised by Python `str.strip` (the
characters for which `str.isspace` is true) and, identically, by the regex
class `\s` on str patterns: U+0009..U+000D, U+001C..U+001F, U+0020,
U+0085, U+00A0, U+1680, U+2000..U+200A, U+2028, U+2029, U+202F, U+205F,
U+3000. -/
def isPySpace (c : Char) : Bool :=
  let n := c.toNat
  (0x09 ≤ n && n ≤ 0x0d) || n = 0x20 || (0x1c ≤ n && n ≤ 0x1f) || n = 0x85 ||
    n = 0xa0 || n = 0x1680 || (0x2000 ≤ n && n ≤ 0x200a) || n = 0x2028 ||
    n = 0x2029 || n = 0x202f || n = 0x205f || n = 0x3000

def digitVal (c : Char) : Nat := c.toNat - '0'.toNat

/-- Python `str.strip()` on a character list. -/
def pyStripList (cs : List Char) : List Char :=
  ((cs.dropWhile isPySpace).reverse.dropWhile isPySpace).reverse

/-- Python `str.strip()`. -/
def pyStrip (s : String) : String := String.mk (pyStripList s.data)

/-- Python `str.split(sep)` for a one-character separator: the result is
always nonempty and keeps empty pieces. -/
def splitOnChar (sep : Char) : List Char → List (List Char)
  | [] => [[]]
  | c :: rest =>
    if c = sep then [] :: splitOnChar sep rest
    else
      match splitOnChar sep rest with
      | [] => [[c]]
      | h :: t => (c :: h) :: t

/-- Python substring containment (the `in` operator on strings). -/
def isSubstr (needle : List Char) : List Char → Bool
  | [] => needle.isEmpty
  | c :: t => needle.isPrefixOf (c :: t) || isSubstr needle t

/-- Leftmost-position scan of `re.search`: try the matcher at every start
position, leftmost first. -/
def scanFirst (f : List Char → Option (List Char)) : List Char → Option (List Char)
  | [] => f []
  | c :: rest =>
    match f (c :: rest) with
    | some g => some g
    | none => scanFirst f rest

/-! ### The rating-line regexes -/

/-- `re.search(r'(\d\.\d)', s)`: the two digits of the first
digit-dot-digit occurrence. -/
def findRatingDigits : List Char → Option (Nat × Nat)
  | c1 :: c2 :: c3 :: rest =>
    if c1.isDigit && c2 = '.' && c3.isDigit then some (digitVal c1, digitVal c3)
    else findRatingDigits (c2 :: c3 :: rest)
  | _ => none

def takeDigits (cs : List Char) : List Char := cs.takeWhile Char.isDigit

/-- Maximal number of repetitions of `,\d{3}` at the head of the input. -/
def maxCommaReps : List Char → Nat
  | ',' :: a :: b :: c :: rest =>
    if a.isDigit && b.isDigit && c.isDigit then maxCommaReps rest + 1 else 0
  | _ => 0

/-- The list n, n-1, ..., 1. -/
def downFrom1 (n : Nat) : List Nat := (List.range n).map (fun j => n - j)

/-- The list n, n-1, ..., 0. -/
def downFrom0 (n : Nat) : List Nat := (List.range (n + 1)).map (fun j => n - j)

/-- All candidate texts for group 1 of `\d{1,3}(,\d{3})*|\d+` at the head of
the input, in the order the Python backtracking engine tries them: first
alternative with greedy `\d{1,3}` and greedy star, then the second
alternative with greedy `\d+`. -/
def reviewCandidates (cs : List Char) : List (List Char) :=
  let alt1 := ((downFrom1 (min (takeDigits cs).length 3)).map (fun k =>
    (downFrom0 (maxCommaReps (cs.drop k))).map
      (fun r => cs.take k ++ (cs.drop k).take (4 * r)))).flatten
  let alt2 := (downFrom1 (takeDigits cs).length).map (fun p => cs.take p)
  alt1 ++ alt2

/-- `\((\d{1,3}(,\d{3})*|\d+)\)` anchored at the current position: an
opening parenthesis, then the first candidate group that is followed by a
closing parenthesis. -/
def matchReviewAt : List Char → Option (List Char)
  | '(' :: rest =>
    (reviewCandidates rest).find? (fun g => (rest.drop g.length).head? == some ')')
  | _ => none

/-- `re.search(r'\((\d{1,3}(,\d{3})*|\d+)\)', s)`, returning group 1. -/
def findReview (cs : List Char) : Option (List Char) := scanFirst matchReviewAt cs

/-- Python `int` on a string of decimal digits. -/
def digitsToNat (ds : List Char) : Nat := ds.foldl (fun n c => 10 * n + digitVal c) 0

/-! ### The years-in-business regex -/

/-- Lowercased prefix comparison against an already-lowercase literal. -/
def caselessHasLit (lit cs : List Char) : Bool :=
  (cs.take lit.length).map Char.toLower == lit

/-- The `\s+years in business` tail (case-insensitive): at least one
whitespace character, then the literal.  Taking the whitespace run
maximally is faithful: a shorter run would leave a whitespace character
where the literal requires the letter y. -/
def yearsTailOk (cs : List Char) : Bool :=
  let ws := cs.takeWhile isPySpace
  !ws.isEmpty && caselessHasLit "years in business".data (cs.drop ws.length)

/-- The four ways the two optional plus signs of `(\d+\+?)\+?` can match,
in backtracking order; the boolean records whether the captured group ends
in a plus, the number is how many plus characters are consumed in total. -/
def yearsCombos : List (Bool × Nat) := [(true, 2), (true, 1), (false, 1), (false, 0)]

/-- `(\d+\+?)\+?\s+years in business` (IGNORECASE) anchored at the current
position, returning group 1.  Taking `\d+` maximally is faithful: with
fewer digits the next pattern element would face a digit, which neither
`\+?` nor `\s+` can consume. -/
def yearsMatchAt (cs : List Char) : Option (List Char) :=
  let ds := takeDigits cs
  if ds.isEmpty then none
  else
    let rest := cs.drop ds.length
    let p := (rest.takeWhile (fun c => c = '+')).length
    (((yearsCombos.filter (fun ic => decide (ic.2 ≤ p))).find?
        (fun ic => yearsTailOk (rest.drop ic.2))).map
      (fun ic => ds ++ if ic.1 then ['+'] else []))

/-- `re.search(r'(\d+\+?)\+?\s+years in business', s, re.IGNORECASE)`,
returning group 1. -/
def findYears (cs : List Char) : Option (List Char) := scanFirst yearsMatchAt cs

/-! ### The phone-number regex -/

def isDigitOrWs (c : Char) : Bool := c.isDigit || isPySpace c

/-- Shape of the first phone alternative `\d{5}\s\d{5}`. -/
def isFiveWsFive (m : List Char) : Bool :=
  match m with
  | [a, b, c, d, e, w, a2, b2, c2, d2, e2] =>
    (a.isDigit && b.isDigit && c.isDigit && d.isDigit && e.isDigit) && isPySpace w &&
    (a2.isDigit && b2.isDigit && c2.isDigit && d2.isDigit && e2.isDigit)
  | _ => false

/-- Shape of the second phone alternative `\d{10}`. -/
def isTenDigits (m : List Char) : Bool := m.length == 10 && m.all Char.isDigit

/-- `\d{5}\s\d{5}|\d{10}|[0-9\s]{8,}` anchored at the current position,
alternatives tried in order, returning the whole match (group 0). -/
def matchPhoneAt (cs : List Char) : Option (List Char) :=
  if isFiveWsFive (cs.take 11) then some (cs.take 11)
  else if isTenDigits (cs.take 10) then some (cs.take 10)
  else
    let m := cs.takeWhile isDigitOrWs
    if 8 ≤ m.length then some m else none

/-- `re.search(r'(\d{5}\s\d{5}|\d{10}|[0-9\s]{8,})', s)`, group 0. -/
def findPhone (cs : List Char) : Option (List Char) := scanFirst matchPhoneAt cs

/-! ### The listing fragment and parsed record -/

/-- The text content of one rendered listing fragment, as the parser reads
it: `nameEl` is the text of the `div.dbg0pd span` sub-element when that
element is found, `ratingEl` the text of the `span.Y0A0hc` sub-element, and
`childDivs` the texts of the direct `./div` children in document order. -/
structure Fragment where
  nameEl : Option String
  ratingEl : Option String
  childDivs : List String
deriving DecidableEq

/-- The flat record produced for one listing. -/
structure ListingRecord where
  keyword : String
  name : Option String
  rating : Option ℚ
  numReviews : Option Nat
  category : Option String
  yearsInBusiness : Option String
  address : Option String
  phoneNumber : Option String
deriving DecidableEq

/-- The rating try-block: split the rating line on the middle dot, search
the first part for the rating and the parenthesised review count, take the
stripped second part as the category.  A missing rating sub-element makes
the whole block a no-op, leaving all three fields absent. -/
def ratingBlockFields : Option String → Option ℚ × Option Nat × Option String
  | none => (none, none, none)
  | some line =>
    let parts := splitOnChar '·' line.data
    let p0 := parts.headD []
    ((findRatingDigits p0).map (fun dd => (dd.1 : ℚ) + (dd.2 : ℚ) / 10),
     (findReview p0).map (fun g => digitsToNat (g.filter (fun c => !(c == ',')))),
     match parts with
     | _ :: p1 :: _ => some (String.mk (pyStripList p1))
     | _ => none)

/-- `" ".join([div.text for div in details_divs if div.text])`. -/
def fullTextOf (divs : List String) : List Char :=
  List.intercalate [' '] ((divs.filter (fun d => !d.isEmpty)).map String.data)

/-- The address scan over the child div texts: skip empty blocks, blocks
mentioning years in business, blocks containing the found phone number,
the middle-dot separator, or the opening-hours markers; the first
remaining block longer than 15 characters is the address. -/
def addressScan (phone : Option String) : List String → Option String
  | [] => none
  | d :: rest =>
    let text := pyStripList d.data
    let phoneIn :=
      match phone with
      | some p => !p.isEmpty && isSubstr p.data text
      | none => false
    if text.isEmpty || isSubstr "years in business".data (text.map Char.toLower) ||
        phoneIn || isSubstr ['·'] text || isSubstr "Open".data text ||
        isSubstr "Closes".data text || isSubstr "On-site services".data text then
      addressScan phone rest
    else if 15 < text.length then some (String.mk text)
    else addressScan phone rest

/-- The child-divs try-block: years in business and phone number are
extracted from the space-joined concatenation of the nonempty child texts;
the phone match is kept only when its whitespace-free form has at least 8
characters, and the stored value is the match with its surrounding
whitespace stripped.  The address scan runs over the individual child
texts and may consult the found phone number. -/
def childBlockFields (divs : List String) : Option String × Option String × Option String :=
  let fullText := fullTextOf divs
  let years := (findYears fullText).map String.mk
  let phone :=
    match findPhone fullText with
    | some m =>
      if 8 ≤ (m.filter (fun c => !isPySpace c)).length then some (String.mk (pyStripList m))
      else none
    | none => none
  (years, phone, addressScan phone divs)

/-- The parser `parse_gmb_listing(element, keyword)`.  Each of the three
try-blocks of the source is modelled by a total function of exactly the
inputs that block reads, so a failing block leaves its own fields absent
and cannot disturb the others. -/
def parse_gmb_listing (el : Fragment) (keyword : String) : ListingRecord :=
  let rb := ratingBlockFields el.ratingEl
  let cb := childBlockFields el.childDivs
  { keyword := keyword
    name := el.nameEl
    rating := rb.1
    numReviews := rb.2.1
    category := rb.2.2
    yearsInBusiness := cb.1
    phoneNumber := cb.2.1
    address := cb.2.2 }

/-- Python truthiness of `parsed_data.get("Name")`: a present, nonempty
name. -/
def nameTruthy (r : ListingRecord) : Bool :=
  match r.name with
  | some s => !s.isEmpty
  | none => false

/-! ### Pagination -/

/-- What the browser would show on one results page: the listing fragments
found by the container selector, and whether the next-page control is
present. -/
structure PageView where
  listings : List Fragment
  hasNext : Bool

def MAX_GMB_PAGES_TO_SCRAPE : Nat := 10

/-- The body of `for page_num in range(1, MAX_GMB_PAGES_TO_SCRAPE + 1)`:
collect the listings of the current page; an empty page breaks the loop;
otherwise parse every listing, keep those with a truthy name, and follow
the next-page control, whose absence breaks the loop.  The second
component counts the pages visited. -/
def scrapePagesAux (pages : Nat → PageView) (kw : String) :
    Nat → Nat → List ListingRecord → List ListingRecord × Nat
  | 0, idx, acc => (acc, idx)
  | fuel + 1, idx, acc =>
    let pg := pages idx
    if pg.listings.isEmpty then (acc, idx + 1)
    else
      let acc2 := acc ++ (pg.listings.map (fun l => parse_gmb_listing l kw)).filter nameTruthy
      if pg.hasNext then scrapePagesAux pages kw fuel (idx + 1) acc2
      else (acc2, idx + 1)

/-- The pagination loop for one keyword. -/
def scrapePages (pages : Nat → PageView) (kw : String) : List ListingRecord × Nat :=
  scrapePagesAux pages kw MAX_GMB_PAGES_TO_SCRAPE 0 []

/-! ### CAPTCHA handling -/

/-- One state of `handle_captcha`: remaining poll budget, current poll
index, notifications sent so far, and the alert_sent flag.  Each loop
iteration first re-checks the iframe; absence returns True immediately.
Otherwise the alert is sent once, guarded by the flag, and the loop
sleeps into the next poll.  An exhausted budget is the timeout and
returns False. -/
def handle_captcha_aux (present : Nat → Bool) : Nat → Nat → Nat → Bool → Bool × Nat
  | 0, _, notifCount, _ => (false, notifCount)
  | fuel + 1, i, notifCount, alertSent =>
    if present i then
      handle_captcha_aux present fuel (i + 1)
        (if alertSent then notifCount else notifCount + 1) true
    else (true, notifCount)

/-- `handle_captcha(driver, keyword)`: returns the success boolean of the
source together with the number of alert notifications sent. -/
def handle_captcha (present : Nat → Bool) (maxPolls : Nat) : Bool × Nat :=
  handle_captcha_aux present maxPolls 0 0 false

/-! ### The per-keyword block of the main loop -/

/-- The environment one keyword meets: whether the search box is located
within its wait, the iframe presence trace (index 0 is the detection check
right after the search, which the CAPTCHA loop re-reads at its first
poll), whether the More businesses control is found, and the results
pages. -/
structure KeywordEnv where
  searchBoxFound : Bool
  captchaPresent : Nat → Bool
  moreBusinessesFound : Bool
  pages : Nat → PageView

/-- The per-keyword block of `__main__`: a missing search box abandons the
keyword with no save; a detected CAPTCHA runs `handle_captcha`, and a
timeout saves the keyword and moves on; a missing More-businesses control
saves and moves on; otherwise the pagination loop runs and the keyword is
saved at the end.  Result: the records kept for this keyword, whether
`save_completed_keyword` was called, and the notifications sent. -/
def processKeyword (maxPolls : Nat) (e : KeywordEnv) (kw : String) :
    List ListingRecord × Bool × Nat :=
  if e.searchBoxFound then
    let cap := if e.captchaPresent 0 then handle_captcha e.captchaPresent maxPolls else (true, 0)
    if cap.1 then
      if e.moreBusinessesFound then ((scrapePages e.pages kw).1, true, cap.2)
      else ([], true, cap.2)
    else ([], true, cap.2)
  else ([], false, 0)

/-- The keyword loop of `__main__`: keywords already in the loaded
completed set are skipped; the records of the processed keywords are
accumulated in order, and the saved keywords collected. -/
def runKeywords (maxPolls : Nat) (completed : List String) :
    List (String × KeywordEnv) → List ListingRecord × List String
  | [] => ([], [])
  | (kw, e) :: rest =>
    let r := runKeywords maxPolls completed rest
    if kw ∈ completed then r
    else
      let p := processKeyword maxPolls e kw
      (p.1 ++ r.1, (if p.2.1 then [kw] else []) ++ r.2)

/-! ### The progress store -/

/-- `save_completed_keyword`: append the keyword and a newline to the
progress file (creating it when missing). -/
def save_completed_keyword (kw : String) (file : Option (List Char)) : Option (List Char) :=
  some ((file.getD []) ++ kw.data ++ ['\n'])

/-- Splitting at the universal-newlines line terminators of Python text
mode: a carriage-return line-feed pair, a lone carriage return, or a lone
line feed each end a line.  Empty pieces are kept, so the split of a
terminated content ends in an empty piece. -/
def splitLinesU : List Char → List (List Char)
  | [] => [[]]
  | '\r' :: '\n' :: rest => [] :: splitLinesU rest
  | '\r' :: rest => [] :: splitLinesU rest
  | '\n' :: rest => [] :: splitLinesU rest
  | c :: rest =>
    match splitLinesU rest with
    | [] => [[c]]
    | h :: t => (c :: h) :: t

/-- The lines a Python `for line in f` iteration yields (text mode,
universal newlines), with the line terminators already cut off: split at
the terminators and drop the final empty piece when the content ends in a
terminator. -/
def fileLinesL (s : List Char) : List (List Char) :=
  if s.isEmpty then []
  else if s.getLast? = some '\n' ∨ s.getLast? = some '\r' then (splitLinesU s).dropLast
  else splitLinesU s

/-- `load_completed_keywords`: a missing file gives the empty set,
otherwise the set of the stripped lines. -/
def load_completed_keywords (file : Option (List Char)) : Finset String :=
  match file with
  | none => ∅
  | some s => ((fileLinesL s).map (fun l => String.mk (pyStripList l))).toFinset

/-! ### Lemmas about line splitting and the progress file -/

theorem splitOnChar_ne_nil (sep : Char) (l : List Char) : splitOnChar sep l ≠ [] := by
  cases l with
  | nil => simp [splitOnChar]
  | cons c rest =>
    simp only [splitOnChar]
    split
    · simp
    · split <;> simp

theorem splitOnChar_cons_self (sep : Char) (rest : List Char) :
    splitOnChar sep (sep :: rest) = [] :: splitOnChar sep rest := by
  simp [splitOnChar]

theorem splitOnChar_cons_ne (sep c : Char) (rest : List Char) (hc : ¬c = sep) :
    splitOnChar sep (c :: rest) =
      match splitOnChar sep rest with
      | [] => [[c]]
      | h :: t => (c :: h) :: t := by
  simp [splitOnChar, hc]

theorem splitOnChar_append_sep (sep : Char) (xs ys : List Char) :
    splitOnChar sep (xs ++ sep :: ys) = splitOnChar sep xs ++ splitOnChar sep ys := by
  induction xs with
  | nil => simp [splitOnChar]
  | cons x xs ih =>
    obtain ⟨h, t, hht⟩ : ∃ h t, splitOnChar sep xs = h :: t := by
      cases hsp : splitOnChar sep xs with
      | nil => exact absurd hsp (splitOnChar_ne_nil sep xs)
      | cons h t => exact ⟨h, t, rfl⟩
    by_cases hx : x = sep
    · subst hx
      rw [List.cons_append, splitOnChar_cons_self, splitOnChar_cons_self, ih,
        List.cons_append]
    · rw [List.cons_append, splitOnChar_cons_ne sep x _ hx,
        splitOnChar_cons_ne sep x _ hx, ih, hht]
      simp

theorem splitOnChar_no_sep (sep : Char) (xs : List Char) (h : sep ∉ xs) :
    splitOnChar sep xs = [xs] := by
  induction xs with
  | nil => rfl
  | cons x xs ih =>
    have hx : ¬x = sep := fun he => h (he ▸ List.mem_cons_self x xs)
    have hxs : sep ∉ xs := fun hm => h (List.mem_cons_of_mem x hm)
    simp only [splitOnChar, if_neg hx, ih hxs]

theorem splitOnChar_concat (sep : Char) (xs : List Char) :
    splitOnChar sep (xs ++ [sep]) = splitOnChar sep xs ++ [[]] := by
  simpa [splitOnChar] using splitOnChar_append_sep sep xs []

theorem splitLinesU_no_cr (s : List Char) (h : '\r' ∉ s) :
    splitLinesU s = splitOnChar '\n' s := by
  induction s using splitLinesU.induct with
  | case1 => rfl
  | case2 rest ih => exact absurd (List.mem_cons_self _ _) h
  | case3 rest hr ih => exact absurd (List.mem_cons_self _ _) h
  | case4 rest ih =>
    have hrest : '\r' ∉ rest := fun hm => h (List.mem_cons_of_mem _ hm)
    simp [splitLinesU, splitOnChar, ih hrest]
  | case5 c rest hcr hc1 hc2 hnil ih =>
    have hrest : '\r' ∉ rest := fun hm => h (List.mem_cons_of_mem _ hm)
    have hc1n : ¬c = '\r' := hc1
    have hc2n : ¬c = '\n' := hc2
    rw [show splitLinesU (c :: rest) = match splitLinesU rest with
        | [] => [[c]] | h :: t => (c :: h) :: t from by
      simp [splitLinesU, hc1n, hc2n]]
    rw [show splitOnChar '\n' (c :: rest) = match splitOnChar '\n' rest with
        | [] => [[c]] | h :: t => (c :: h) :: t from by
      simp [splitOnChar, hc2n]]
    rw [ih hrest]
  | case6 c rest hcr hc1 hc2 hh t hcons ih =>
    have hrest : '\r' ∉ rest := fun hm => h (List.mem_cons_of_mem _ hm)
    have hc1n : ¬c = '\r' := hc1
    have hc2n : ¬c = '\n' := hc2
    rw [show splitLinesU (c :: rest) = match splitLinesU rest with
        | [] => [[c]] | h :: t => (c :: h) :: t from by
      simp [splitLinesU, hc1n, hc2n]]
    rw [show splitOnChar '\n' (c :: rest) = match splitOnChar '\n' rest with
        | [] => [[c]] | h :: t => (c :: h) :: t from by
      simp [splitOnChar, hc2n]]
    rw [ih hrest]

theorem fileLinesL_single (k : List Char) (hk : '\n' ∉ k) (hkr : '\r' ∉ k) :
    fileLinesL (k ++ ['\n']) = [k] := by
  have hcr : '\r' ∉ k ++ ['\n'] := by
    simp [hkr]
  unfold fileLinesL
  rw [if_neg (by simp), if_pos (Or.inl (List.getLast?_concat k)),
    splitLinesU_no_cr _ hcr]
  rw [splitOnChar_concat, splitOnChar_no_sep _ _ hk, List.dropLast_concat]

theorem fileLinesL_double (k : List Char) (hk : '\n' ∉ k) (hkr : '\r' ∉ k) :
    fileLinesL ((k ++ ['\n']) ++ (k ++ ['\n'])) = [k, k] := by
  have h1 : (k ++ ['\n']) ++ (k ++ ['\n']) = k ++ '\n' :: (k ++ ['\n']) := by simp
  have h2 : (k ++ ['\n']) ++ (k ++ ['\n']) = ((k ++ '\n' :: k) ++ ['\n']) := by simp
  have hcr : '\r' ∉ (k ++ ['\n']) ++ (k ++ ['\n']) := by
    simp [hkr]
  unfold fileLinesL
  rw [if_neg (by simp), if_pos (Or.inl (h2 ▸ List.getLast?_concat (k ++ '\n' :: k))),
    splitLinesU_no_cr _ hcr]
  rw [h1, splitOnChar_append_sep, splitOnChar_no_sep _ _ hk,
    splitOnChar_concat, splitOnChar_no_sep _ _ hk]
  rfl

theorem fileLinesL_mem_append (pre k : List Char)
    (hpre : pre = [] ∨ pre.getLast? = some '\n') (hprer : '\r' ∉ pre)
    (hk : '\n' ∉ k) (hkr : '\r' ∉ k) :
    k ∈ fileLinesL (pre ++ k ++ ['\n']) := by
  rcases hpre with hpre | hpre
  · subst hpre
    rw [List.nil_append, fileLinesL_single k hk hkr]
    exact List.mem_singleton.mpr rfl
  · have hne : pre ≠ [] := by
      intro h; rw [h] at hpre; exact Option.noConfusion hpre
    have hdec : pre.dropLast ++ ['\n'] = pre := by
      have h1 := List.dropLast_append_getLast hne
      have h2 : pre.getLast hne = '\n' := by
        have := List.getLast?_eq_getLast pre hne
        rw [this] at hpre
        exact Option.some.inj hpre
      rw [h2] at h1
      exact h1
    have hshape : pre ++ k ++ ['\n'] = pre.dropLast ++ '\n' :: (k ++ ['\n']) := by
      conv_lhs => rw [← hdec]
      simp
    have hlast : (pre ++ k ++ ['\n']).getLast? = some '\n' :=
      List.getLast?_concat (pre ++ k)
    have hcr : '\r' ∉ pre ++ k ++ ['\n'] := by
      simp [hkr, hprer]
    unfold fileLinesL
    rw [if_neg (by simp), if_pos (Or.inl hlast), splitLinesU_no_cr _ hcr,
      hshape, splitOnChar_append_sep, splitOnChar_concat, splitOnChar_no_sep _ _ hk]
    have hdl : splitOnChar '\n' pre.dropLast ++ ([k] ++ [[]]) =
        (splitOnChar '\n' pre.dropLast ++ [k]) ++ [[]] := by simp
    rw [hdl, List.dropLast_concat]
    exact List.mem_append_right _ (List.mem_singleton.mpr rfl)

/-- Claim C9 (amended): for every keyword containing no newline and no
carriage-return character, calling save twice for that keyword starting
from a missing progress file and reloading yields exactly the singleton
set of the stripped form of the keyword (the duplicate lines collapse
under set semantics), and loading when the progress file is missing
yields the empty set. -/
theorem c9_save_twice_idempotent (k : String) (hk : '\n' ∉ k.data)
    (hkr : '\r' ∉ k.data) :
    load_completed_keywords
        (save_completed_keyword k (save_completed_keyword k none)) =
      {String.mk (pyStripList k.data)} ∧
    load_completed_keywords none = ∅ := by
  constructor
  · have hfile : save_completed_keyword k (save_completed_keyword k none) =
        some ((k.data ++ ['\n']) ++ (k.data ++ ['\n'])) := by
      simp [save_completed_keyword, List.append_assoc]
    have hload : ∀ s, load_completed_keywords (some s) =
        ((fileLinesL s).map (fun l => String.mk (pyStripList l))).toFinset := fun _ => rfl
    rw [hfile, hload, fileLinesL_double k.data hk hkr]
    simp [List.toFinset_cons]
  · rfl

/-- Claim C9, counterexample: for the keyword with an embedded newline
"a\nb" — and likewise for the keyword with an embedded carriage return
"a\rb", since reading uses universal newlines — saving twice and
reloading yields a set that does not contain the keyword at all (its two
halves are loaded as separate entries), so the reloaded set does not
contain the keyword exactly once. -/
theorem c9_counterexample :
    ("a\nb" ∉ load_completed_keywords
        (save_completed_keyword "a\nb" (save_completed_keyword "a\nb" none)) ∧
      (load_completed_keywords
        (save_completed_keyword "a\nb" (save_completed_keyword "a\nb" none))).card ≠ 1) ∧
    ("a\rb" ∉ load_completed_keywords
        (save_completed_keyword "a\rb" (save_completed_keyword "a\rb" none)) ∧
      (load_completed_keywords
        (save_completed_keyword "a\rb" (save_completed_keyword "a\rb" none))).card ≠ 1) := by
  decide

theorem c9_save_twice_idempotent_witness :
    '\n' ∉ "ab".data ∧ '\r' ∉ "ab".data ∧
    load_completed_keywords
        (save_completed_keyword "ab" (save_completed_keyword "ab" none)) =
      ({"ab"} : Finset String) :=
  ⟨by decide, by decide,
    ((c9_save_twice_idempotent "ab" (by decide) (by decide)).1).trans (by decide)⟩

/-- Claim C10 (amended): the save/load round-trip is exact only for
keywords with no surrounding whitespace and no embedded line terminator
(neither newline nor carriage return, since loading reads with universal
newlines): every such keyword is a member of load after save, over a
missing, empty, or newline-terminated carriage-return-free prior file; a
keyword with surrounding whitespace is recovered only in stripped form,
so the saved text is not found verbatim in the reloaded set. -/
theorem c10_roundtrip_clean (k : String) (file : Option (List Char))
    (hk : '\n' ∉ k.data) (hkr : '\r' ∉ k.data)
    (hclean : pyStripList k.data = k.data)
    (hfile : file = none ∨
      ∃ s, file = some s ∧ '\r' ∉ s ∧ (s = [] ∨ s.getLast? = some '\n')) :
    k ∈ load_completed_keywords (save_completed_keyword k file) ∧
    " a " ∉ load_completed_keywords (save_completed_keyword " a " none) ∧
    load_completed_keywords (save_completed_keyword " a " none) = {"a"} := by
  refine ⟨?_, by decide, by decide⟩
  have hmem : k.data ∈ fileLinesL (file.getD [] ++ k.data ++ ['\n']) := by
    rcases hfile with hfile | ⟨s, hfile, hscr, hs⟩
    · subst hfile
      exact fileLinesL_mem_append [] k.data (Or.inl rfl) (by simp) hk hkr
    · subst hfile
      rcases hs with hs | hs
      · subst hs
        exact fileLinesL_mem_append [] k.data (Or.inl rfl) (by simp) hk hkr
      · exact fileLinesL_mem_append s k.data (Or.inr hs) hscr hk hkr
  simp only [load_completed_keywords, save_completed_keyword, List.mem_toFinset]
  refine List.mem_map.mpr ⟨k.data, hmem, ?_⟩
  rw [hclean]

/-- Claim C10, counterexample: the keyword "a\rb" is clean in the sense of
the claim (no surrounding whitespace, no embedded newline), yet after save
the universal-newlines read splits it at the carriage return, so the
reloaded set is the two halves and does not contain the saved keyword. -/
theorem c10_counterexample :
    pyStripList "a\rb".data = "a\rb".data ∧ '\n' ∉ "a\rb".data ∧
    "a\rb" ∉ load_completed_keywords (save_completed_keyword "a\rb" none) ∧
    load_completed_keywords (save_completed_keyword "a\rb" none) = {"a", "b"} := by
  decide

theorem c10_roundtrip_clean_witness :
    '\n' ∉ "abc".data ∧ '\r' ∉ "abc".data ∧ pyStripList "abc".data = "abc".data ∧
    "abc" ∈ load_completed_keywords (save_completed_keyword "abc" none) :=
  ⟨by decide, by decide, by decide,
    (c10_roundtrip_clean "abc" none (by decide) (by decide) (by decide) (Or.inl rfl)).1⟩

/-! ### Lemmas about the CAPTCHA loop -/

theorem handle_captcha_aux_sent (present : Nat → Bool) :
    ∀ fuel i n, (handle_captcha_aux present fuel i n true).2 = n := by
  intro fuel
  induction fuel with
  | zero => intro i n; rfl
  | succ fuel ih =>
    intro i n
    by_cases h : present i = true
    · simp [handle_captcha_aux, h, ih]
    · simp [handle_captcha_aux, h]

theorem handle_captcha_aux_resolved (present : Nat → Bool) :
    ∀ fuel i n s, (handle_captcha_aux present fuel i n s).1 = true ↔
      ∃ j, j < fuel ∧ present (i + j) = false := by
  intro fuel
  induction fuel with
  | zero =>
    intro i n s
    simp [handle_captcha_aux]
  | succ fuel ih =>
    intro i n s
    by_cases h : present i = true
    · rw [show handle_captcha_aux present (fuel + 1) i n s =
          handle_captcha_aux present fuel (i + 1) (if s then n else n + 1) true from
          by simp [handle_captcha_aux, h]]
      rw [ih]
      constructor
      · rintro ⟨j, hj, hpj⟩
        refine ⟨j + 1, by omega, ?_⟩
        rw [show i + (j + 1) = i + 1 + j from by omega]
        exact hpj
      · rintro ⟨j, hj, hpj⟩
        cases j with
        | zero =>
          rw [Nat.add_zero] at hpj
          rw [hpj] at h
          exact absurd h (by simp)
        | succ j =>
          refine ⟨j, by omega, ?_⟩
          rw [show i + 1 + j = i + (j + 1) from by omega]
          exact hpj
    · have hfalse : present i = false := by
        cases hp : present i
        · rfl
        · exact absurd hp h
      rw [show handle_captcha_aux present (fuel + 1) i n s = (true, n) from
        by simp [handle_captcha_aux, hfalse]]
      simp only [true_iff]
      exact ⟨0, by omega, by rw [Nat.add_zero]; exact hfalse⟩

theorem handle_captcha_notifs (present : Nat → Bool) (maxPolls : Nat)
    (h1 : 1 ≤ maxPolls) (h0 : present 0 = true) :
    (handle_captcha present maxPolls).2 = 1 := by
  obtain ⟨fuel, rfl⟩ : ∃ fuel, maxPolls = fuel + 1 := ⟨maxPolls - 1, by omega⟩
  rw [show handle_captcha present (fuel + 1) =
      handle_captcha_aux present fuel 1 1 true from by
    simp [handle_captcha, handle_captcha_aux, h0]]
  exact handle_captcha_aux_sent present fuel 1 1

theorem handle_captcha_resolved_iff (present : Nat → Bool) (maxPolls : Nat) :
    (handle_captcha present maxPolls).1 = true ↔
      ∃ j, j < maxPolls ∧ present j = false := by
  rw [handle_captcha, handle_captcha_aux_resolved]
  simp

/-! ### Unfoldings of the per-keyword block -/

theorem processKeyword_no_search_box (maxPolls : Nat) (e : KeywordEnv) (kw : String)
    (h : e.searchBoxFound = false) :
    processKeyword maxPolls e kw = ([], false, 0) := by
  simp [processKeyword, h]

theorem processKeyword_captcha_timeout (maxPolls : Nat) (e : KeywordEnv) (kw : String)
    (hbox : e.searchBoxFound = true) (hdet : e.captchaPresent 0 = true)
    (hfail : (handle_captcha e.captchaPresent maxPolls).1 = false) :
    processKeyword maxPolls e kw = ([], true, (handle_captcha e.captchaPresent maxPolls).2) := by
  simp [processKeyword, hbox, hdet, hfail]

theorem processKeyword_no_more_button (maxPolls : Nat) (e : KeywordEnv) (kw : String)
    (hbox : e.searchBoxFound = true)
    (hcap : e.captchaPresent 0 = false ∨ (handle_captcha e.captchaPresent maxPolls).1 = true)
    (hmore : e.moreBusinessesFound = false) :
    (processKeyword maxPolls e kw).1 = [] ∧ (processKeyword maxPolls e kw).2.1 = true := by
  rcases hcap with hcap | hcap
  · simp [processKeyword, hbox, hcap, hmore]
  · by_cases hdet : e.captchaPresent 0 = true
    · simp [processKeyword, hbox, hdet, hcap, hmore]
    · simp [processKeyword, hbox, hdet, hmore]

theorem runKeywords_cons (maxPolls : Nat) (completed : List String)
    (kw : String) (e : KeywordEnv) (rest : List (String × KeywordEnv))
    (hkw : kw ∉ completed) :
    runKeywords maxPolls completed ((kw, e) :: rest) =
      ((processKeyword maxPolls e kw).1 ++ (runKeywords maxPolls completed rest).1,
       (if (processKeyword maxPolls e kw).2.1 then [kw] else []) ++
         (runKeywords maxPolls completed rest).2) := by
  simp [runKeywords, hkw]

/-- Claim C1 (amended): a keyword whose search box is not found is skipped
WITHOUT being recorded in the progress store (it would be retried on a
rerun); the other two recoverable outcomes, expand-control-not-found and
CAPTCHA-timeout, do record the keyword as completed; in every case the run
continues with the remaining keywords unchanged. -/
theorem c1_recoverable_outcomes (maxPolls : Nat) (e : KeywordEnv) (kw : String) :
    (e.searchBoxFound = false → processKeyword maxPolls e kw = ([], false, 0)) ∧
    (e.searchBoxFound = true → e.captchaPresent 0 = true →
      (handle_captcha e.captchaPresent maxPolls).1 = false →
      processKeyword maxPolls e kw =
        ([], true, (handle_captcha e.captchaPresent maxPolls).2)) ∧
    (e.searchBoxFound = true →
      (e.captchaPresent 0 = false ∨ (handle_captcha e.captchaPresent maxPolls).1 = true) →
      e.moreBusinessesFound = false →
      (processKeyword maxPolls e kw).1 = [] ∧ (processKeyword maxPolls e kw).2.1 = true) ∧
    (∀ completed rest, kw ∉ completed →
      runKeywords maxPolls completed ((kw, e) :: rest) =
        ((processKeyword maxPolls e kw).1 ++ (runKeywords maxPolls completed rest).1,
         (if (processKeyword maxPolls e kw).2.1 then [kw] else []) ++
           (runKeywords maxPolls completed rest).2)) :=
  ⟨processKeyword_no_search_box maxPolls e kw,
   processKeyword_captcha_timeout maxPolls e kw,
   processKeyword_no_more_button maxPolls e kw,
   fun completed rest => runKeywords_cons maxPolls completed kw e rest⟩

def c1CexEnv : KeywordEnv :=
  ⟨false, fun _ => false, true, fun _ => ⟨[], false⟩⟩

/-- Claim C1, counterexample: for a keyword that ends in the
search-box-not-found outcome, the per-keyword block returns without
calling save, so the keyword is NOT recorded as completed, contradicting
the claim that all three recoverable outcomes record the keyword. -/
theorem c1_counterexample :
    c1CexEnv.searchBoxFound = false ∧
    (processKeyword 3 c1CexEnv "plumbers delhi").2.1 = false := by
  decide

def c1WitEnv : KeywordEnv :=
  ⟨true, fun _ => true, false, fun _ => ⟨[], false⟩⟩

theorem c1_recoverable_outcomes_witness :
    processKeyword 1 c1WitEnv "kw" =
      ([], true, (handle_captcha c1WitEnv.captchaPresent 1).2) :=
  (c1_recoverable_outcomes 1 c1WitEnv "kw").2.1 rfl rfl (by decide)

/-- Claim C2: when a CAPTCHA occurrence is detected (the iframe is present
at the detection check, which the handler re-reads as its first poll) and
the timeout allows at least one poll, exactly one notification is sent for
the occurrence; the handler succeeds exactly when the iframe is absent at
some poll before the timeout; and on timeout the keyword contributes no
records, is marked completed, and the run moves to the next keyword with
no further notifications. -/
theorem c2_captcha_occurrence (maxPolls : Nat) (e : KeywordEnv) (kw : String)
    (hbox : e.searchBoxFound = true) (hdet : e.captchaPresent 0 = true)
    (hpolls : 1 ≤ maxPolls) :
    (handle_captcha e.captchaPresent maxPolls).2 = 1 ∧
    ((handle_captcha e.captchaPresent maxPolls).1 = true ↔
      ∃ j, j < maxPolls ∧ e.captchaPresent j = false) ∧
    ((handle_captcha e.captchaPresent maxPolls).1 = false →
      processKeyword maxPolls e kw = ([], true, 1) ∧
      ∀ completed rest, kw ∉ completed →
        runKeywords maxPolls completed ((kw, e) :: rest) =
          ((runKeywords maxPolls completed rest).1,
           kw :: (runKeywords maxPolls completed rest).2)) := by
  have hnot := handle_captcha_notifs e.captchaPresent maxPolls hpolls hdet
  refine ⟨hnot, handle_captcha_resolved_iff e.captchaPresent maxPolls, fun hfail => ?_⟩
  have hproc : processKeyword maxPolls e kw = ([], true, 1) := by
    rw [processKeyword_captcha_timeout maxPolls e kw hbox hdet hfail, hnot]
  refine ⟨hproc, fun completed rest hkw => ?_⟩
  rw [runKeywords_cons maxPolls completed kw e rest hkw, hproc]
  simp

def c2WitEnv : KeywordEnv :=
  ⟨true, fun _ => true, true, fun _ => ⟨[], false⟩⟩

theorem c2_captcha_occurrence_witness :
    processKeyword 2 c2WitEnv "kw" = ([], true, 1) :=
  (((c2_captcha_occurrence 2 c2WitEnv "kw") rfl rfl (by decide)).2.2 (by decide)).1

/-! ### Lemmas about the pagination loop -/

theorem scrapePagesAux_zero (pages : Nat → PageView) (kw : String)
    (idx : Nat) (acc : List ListingRecord) :
    scrapePagesAux pages kw 0 idx acc = (acc, idx) := rfl

theorem scrapePagesAux_succ (pages : Nat → PageView) (kw : String)
    (fuel idx : Nat) (acc : List ListingRecord) :
    scrapePagesAux pages kw (fuel + 1) idx acc =
      if (pages idx).listings.isEmpty then (acc, idx + 1)
      else
        if (pages idx).hasNext then
          scrapePagesAux pages kw fuel (idx + 1)
            (acc ++ ((pages idx).listings.map (fun l => parse_gmb_listing l kw)).filter nameTruthy)
        else
          (acc ++ ((pages idx).listings.map (fun l => parse_gmb_listing l kw)).filter nameTruthy,
           idx + 1) := rfl

theorem scrapePagesAux_le (pages : Nat → PageView) (kw : String) :
    ∀ fuel idx acc, (scrapePagesAux pages kw fuel idx acc).2 ≤ idx + fuel := by
  intro fuel
  induction fuel with
  | zero => intro idx acc; rw [scrapePagesAux_zero]; omega
  | succ fuel ih =>
    intro idx acc
    rw [scrapePagesAux_succ]
    by_cases h1 : (pages idx).listings.isEmpty = true
    · rw [if_pos h1]; omega
    · rw [if_neg h1]
      by_cases h2 : (pages idx).hasNext = true
      · rw [if_pos h2]
        calc (scrapePagesAux pages kw fuel (idx + 1) _).2 ≤ idx + 1 + fuel := ih _ _
        _ = idx + (fuel + 1) := by omega
      · rw [if_neg h2]; omega

theorem scrapePagesAux_ge (pages : Nat → PageView) (kw : String) :
    ∀ fuel idx acc, idx ≤ (scrapePagesAux pages kw fuel idx acc).2 := by
  intro fuel
  induction fuel with
  | zero => intro idx acc; rw [scrapePagesAux_zero]
  | succ fuel ih =>
    intro idx acc
    rw [scrapePagesAux_succ]
    by_cases h1 : (pages idx).listings.isEmpty = true
    · rw [if_pos h1]; omega
    · rw [if_neg h1]
      by_cases h2 : (pages idx).hasNext = true
      · rw [if_pos h2]
        exact le_trans (by omega) (ih (idx + 1) _)
      · rw [if_neg h2]; omega

theorem scrapePagesAux_pos (pages : Nat → PageView) (kw : String)
    (fuel idx : Nat) (acc : List ListingRecord) (hfuel : 1 ≤ fuel) :
    idx + 1 ≤ (scrapePagesAux pages kw fuel idx acc).2 := by
  obtain ⟨fuel, rfl⟩ : ∃ f, fuel = f + 1 := ⟨fuel - 1, by omega⟩
  rw [scrapePagesAux_succ]
  by_cases h1 : (pages idx).listings.isEmpty = true
  · rw [if_pos h1]
  · rw [if_neg h1]
    by_cases h2 : (pages idx).hasNext = true
    · rw [if_pos h2]
      exact scrapePagesAux_ge pages kw fuel (idx + 1) _
    · rw [if_neg h2]

theorem scrapePagesAux_no_stop (pages : Nat → PageView) (kw : String) :
    ∀ fuel idx acc i, idx ≤ i → i + 1 < (scrapePagesAux pages kw fuel idx acc).2 →
      (pages i).listings.isEmpty = false ∧ (pages i).hasNext = true := by
  intro fuel
  induction fuel with
  | zero =>
    intro idx acc i hle hlt
    rw [scrapePagesAux_zero] at hlt
    omega
  | succ fuel ih =>
    intro idx acc i hle hlt
    rw [scrapePagesAux_succ] at hlt
    by_cases h1 : (pages idx).listings.isEmpty = true
    · rw [if_pos h1] at hlt
      simp only at hlt
      omega
    · rw [if_neg h1] at hlt
      by_cases h2 : (pages idx).hasNext = true
      · by_cases hi : i = idx
        · subst hi
          simp only [Bool.not_eq_true] at h1
          exact ⟨h1, h2⟩
        · rw [if_pos h2] at hlt
          exact ih (idx + 1) _ i (by omega) hlt
      · rw [if_neg h2] at hlt
        simp only at hlt
        omega

theorem scrapePagesAux_stop_le (pages : Nat → PageView) (kw : String) :
    ∀ fuel idx acc i, idx ≤ i →
      ((pages i).listings.isEmpty = true ∨ (pages i).hasNext = false) →
      (scrapePagesAux pages kw fuel idx acc).2 ≤ i + 1 := by
  intro fuel
  induction fuel with
  | zero =>
    intro idx acc i hle _
    rw [scrapePagesAux_zero]
    omega
  | succ fuel ih =>
    intro idx acc i hle hstop
    rw [scrapePagesAux_succ]
    by_cases h1 : (pages idx).listings.isEmpty = true
    · rw [if_pos h1]
      simp only
      omega
    · rw [if_neg h1]
      by_cases h2 : (pages idx).hasNext = true
      · by_cases hi : i = idx
        · subst hi
          rcases hstop with hstop | hstop
          · exact absurd hstop h1
          · rw [hstop] at h2
            exact absurd h2 (by simp)
        · rw [if_pos h2]
          exact ih (idx + 1) _ i (by omega) hstop
      · rw [if_neg h2]
        simp only
        omega

/-- Claim C5: the pagination loop visits at least one and at most
MAX_GMB_PAGES_TO_SCRAPE pages; every page before the last visited one had
listings and a next control; and as soon as a page has zero listings or no
next control, no page beyond it is visited. -/
theorem c5_pagination_bound (pages : Nat → PageView) (kw : String) :
    1 ≤ (scrapePages pages kw).2 ∧
    (scrapePages pages kw).2 ≤ MAX_GMB_PAGES_TO_SCRAPE ∧
    (∀ i, i + 1 < (scrapePages pages kw).2 →
      (pages i).listings.isEmpty = false ∧ (pages i).hasNext = true) ∧
    (∀ i, (pages i).listings.isEmpty = true ∨ (pages i).hasNext = false →
      (scrapePages pages kw).2 ≤ i + 1) :=
  ⟨scrapePagesAux_pos pages kw MAX_GMB_PAGES_TO_SCRAPE 0 [] (by decide),
   scrapePagesAux_le pages kw MAX_GMB_PAGES_TO_SCRAPE 0 [],
   fun i => scrapePagesAux_no_stop pages kw MAX_GMB_PAGES_TO_SCRAPE 0 [] i (Nat.zero_le i),
   fun i => scrapePagesAux_stop_le pages kw MAX_GMB_PAGES_TO_SCRAPE 0 [] i (Nat.zero_le i)⟩

theorem c5_pagination_bound_witness :
    (scrapePages (fun _ => ⟨[], true⟩) "kw").2 ≤ 1 :=
  (c5_pagination_bound (fun _ => ⟨[], true⟩) "kw").2.2.2 0 (Or.inl rfl)

/-! ### Provenance of accumulated records -/

theorem scrapePagesAux_mem (pages : Nat → PageView) (kw : String) :
    ∀ fuel idx acc r, r ∈ (scrapePagesAux pages kw fuel idx acc).1 →
      r ∈ acc ∨ (r.keyword = kw ∧ nameTruthy r = true) := by
  intro fuel
  induction fuel with
  | zero => intro idx acc r hr; exact Or.inl hr
  | succ fuel ih =>
    intro idx acc r hr
    have hstep : r ∈ acc ++
        (((pages idx).listings.map (fun f => parse_gmb_listing f kw)).filter nameTruthy) →
        r ∈ acc ∨ (r.keyword = kw ∧ nameTruthy r = true) := by
      intro hmem
      rcases List.mem_append.mp hmem with hmem | hmem
      · exact Or.inl hmem
      · have hfil := List.mem_filter.mp hmem
        obtain ⟨f, _, hf⟩ := List.mem_map.mp hfil.1
        refine Or.inr ⟨?_, hfil.2⟩
        rw [← hf]
        rfl
    by_cases h1 : (pages idx).listings.isEmpty
    · simp only [scrapePagesAux, h1, if_true] at hr
      exact Or.inl hr
    · by_cases h2 : (pages idx).hasNext
      · simp only [scrapePagesAux, h1, h2, if_true, if_false] at hr
        rcases ih (idx + 1) _ r hr with hmem | hgood
        · exact hstep hmem
        · exact Or.inr hgood
      · simp only [scrapePagesAux, h1, h2, if_false] at hr
        exact hstep hr

theorem processKeyword_mem (maxPolls : Nat) (e : KeywordEnv) (kw : String)
    (r : ListingRecord) (hr : r ∈ (processKeyword maxPolls e kw).1) :
    r.keyword = kw ∧ nameTruthy r = true := by
  by_cases hbox : e.searchBoxFound = true
  · simp only [processKeyword, hbox, if_true] at hr
    rcases hcap : (if e.captchaPresent 0 = true
        then handle_captcha e.captchaPresent maxPolls else (true, 0)).1 with _ | _
    · rw [if_neg (by simp [hcap])] at hr
      simp at hr
    · rw [if_pos (by simp [hcap])] at hr
      by_cases hmore : e.moreBusinessesFound = true
      · rw [if_pos (by simp [hmore])] at hr
        simp only at hr
        rcases scrapePagesAux_mem e.pages kw MAX_GMB_PAGES_TO_SCRAPE 0 [] r hr with h | h
        · simp at h
        · exact h
      · rw [if_neg (by simp at hmore ⊢; exact hmore)] at hr
        simp at hr
  · simp only [processKeyword, if_neg hbox] at hr
    simp at hr

theorem runKeywords_mem (maxPolls : Nat) (completed : List String) :
    ∀ envs (r : ListingRecord), r ∈ (runKeywords maxPolls completed envs).1 →
      ∃ p ∈ envs, r.keyword = p.1 ∧ nameTruthy r = true := by
  intro envs
  induction envs with
  | nil => intro r hr; simp [runKeywords] at hr
  | cons p rest ih =>
    intro r hr
    obtain ⟨kw, e⟩ := p
    by_cases hkw : kw ∈ completed
    · rw [show runKeywords maxPolls completed ((kw, e) :: rest) =
          runKeywords maxPolls completed rest from by simp [runKeywords, hkw]] at hr
      obtain ⟨q, hq, hgood⟩ := ih r hr
      exact ⟨q, List.mem_cons_of_mem _ hq, hgood⟩
    · rw [runKeywords_cons maxPolls completed kw e rest hkw] at hr
      rcases List.mem_append.mp hr with hmem | hmem
      · exact ⟨(kw, e), List.mem_cons_self _ _,
          processKeyword_mem maxPolls e kw r hmem⟩
      · obtain ⟨q, hq, hgood⟩ := ih r hmem
        exact ⟨q, List.mem_cons_of_mem _ hq, hgood⟩

/-- Claim C8: every record accumulated over a whole run carries the
keyword of the search that produced it, and its name is present and
nonempty; a record with an empty or absent name is never accumulated. -/
theorem c8_records_invariant (maxPolls : Nat) (completed : List String)
    (envs : List (String × KeywordEnv)) (r : ListingRecord)
    (hr : r ∈ (runKeywords maxPolls completed envs).1) :
    (∃ p ∈ envs, r.keyword = p.1) ∧ ∃ s, r.name = some s ∧ s ≠ "" := by
  obtain ⟨p, hp, hkw, htruthy⟩ := runKeywords_mem maxPolls completed envs r hr
  refine ⟨⟨p, hp, hkw⟩, ?_⟩
  unfold nameTruthy at htruthy
  cases hname : r.name with
  | none => rw [hname] at htruthy; simp at htruthy
  | some s =>
    rw [hname] at htruthy
    refine ⟨s, rfl, fun hs => ?_⟩
    subst hs
    exact absurd htruthy (by decide)

def c8Frag : Fragment := ⟨some "Acme Plumbing", none, []⟩

def c8Env : KeywordEnv :=
  ⟨true, fun _ => false, true, fun _ => ⟨[c8Frag], false⟩⟩

theorem c8_records_invariant_witness :
    (∃ p ∈ [("plumbers", c8Env)],
      (parse_gmb_listing c8Frag "plumbers").keyword = p.1) ∧
    ∃ s, (parse_gmb_listing c8Frag "plumbers").name = some s ∧ s ≠ "" :=
  c8_records_invariant 1 [] [("plumbers", c8Env)]
    (parse_gmb_listing c8Frag "plumbers") (by decide)

/-! ### The parser claims -/

/-- Claim C3: the parser is a total function of the fragment (no exception
escapes), its extraction blocks are independent (the name field is exactly
the name sub-element text, the rating-block fields depend only on the
rating sub-element, the child-div fields depend only on the child divs, so
one block failing cannot disturb another or abort the record), and a
fragment lacking the rating sub-element yields absent Rating, Number of
Reviews and Category. -/
theorem c3_parser_independent (el el2 : Fragment) (kw kw2 : String) :
    (parse_gmb_listing el kw).keyword = kw ∧
    (parse_gmb_listing el kw).name = el.nameEl ∧
    (el.ratingEl = none →
      (parse_gmb_listing el kw).rating = none ∧
      (parse_gmb_listing el kw).numReviews = none ∧
      (parse_gmb_listing el kw).category = none) ∧
    (el.ratingEl = el2.ratingEl →
      (parse_gmb_listing el kw).rating = (parse_gmb_listing el2 kw2).rating ∧
      (parse_gmb_listing el kw).numReviews = (parse_gmb_listing el2 kw2).numReviews ∧
      (parse_gmb_listing el kw).category = (parse_gmb_listing el2 kw2).category) ∧
    (el.childDivs = el2.childDivs →
      (parse_gmb_listing el kw).yearsInBusiness = (parse_gmb_listing el2 kw2).yearsInBusiness ∧
      (parse_gmb_listing el kw).phoneNumber = (parse_gmb_listing el2 kw2).phoneNumber ∧
      (parse_gmb_listing el kw).address = (parse_gmb_listing el2 kw2).address) := by
  refine ⟨rfl, rfl, fun h => ?_, fun h => ?_, fun h => ?_⟩
  · simp only [parse_gmb_listing]
    rw [h]
    exact ⟨rfl, rfl, rfl⟩
  · simp only [parse_gmb_listing]
    rw [h]
    exact ⟨rfl, rfl, rfl⟩
  · simp only [parse_gmb_listing]
    rw [h]
    exact ⟨rfl, rfl, rfl⟩

def c3Frag : Fragment := ⟨some "n", none, ["d"]⟩

def c3Frag2 : Fragment := ⟨none, none, ["d"]⟩

theorem c3_parser_independent_witness :
    (parse_gmb_listing c3Frag "a").rating = none ∧
    (parse_gmb_listing c3Frag "a").phoneNumber = (parse_gmb_listing c3Frag2 "b").phoneNumber :=
  ⟨((c3_parser_independent c3Frag c3Frag2 "a" "b").2.2.1 rfl).1,
   ((c3_parser_independent c3Frag c3Frag2 "a" "b").2.2.2.2 rfl).2.1⟩

def c6Frag : Fragment := ⟨some "Biz", some "4.5 (1,234) · Plumber", []⟩

/-- Claim C6: for the rating line "4.5 (1,234) · Plumber", parsing yields
Rating 4.5, Number of Reviews 1234 (comma stripped, integer) and Category
"Plumber" (second middle-dot segment, trimmed). -/
theorem c6_rating_line :
    (parse_gmb_listing c6Frag "kw").rating = some ((9 : ℚ) / 2) ∧
    (parse_gmb_listing c6Frag "kw").numReviews = some 1234 ∧
    (parse_gmb_listing c6Frag "kw").category = some "Plumber" := by
  refine ⟨?_, by decide, by decide⟩
  have h : (parse_gmb_listing c6Frag "kw").rating =
      some (((4 : Nat) : ℚ) + ((5 : Nat) : ℚ) / 10) := rfl
  have hval : ((4 : Nat) : ℚ) + ((5 : Nat) : ℚ) / 10 = (9 : ℚ) / 2 := by norm_num
  rw [h, hval]

def c7FragA : Fragment := ⟨none, none, ["12 years in business"]⟩

def c7FragB : Fragment := ⟨none, none, ["10+ years in business"]⟩

def c7FragC : Fragment := ⟨none, none, ["12 YEARS IN BUSINESS"]⟩

def c7FragD : Fragment := ⟨none, none, ["Delhi", "12 years in business"]⟩

/-- Claim C7: a child block "12 years in business" yields Years in
Business "12"; "10+ years in business" yields "10+"; the search is
case-insensitive and runs over the space-joined concatenation of all
nonempty child blocks. -/
theorem c7_years_in_business :
    (parse_gmb_listing c7FragA "kw").yearsInBusiness = some "12" ∧
    (parse_gmb_listing c7FragB "kw").yearsInBusiness = some "10+" ∧
    (parse_gmb_listing c7FragC "kw").yearsInBusiness = some "12" ∧
    (parse_gmb_listing c7FragD "kw").yearsInBusiness = some "12" ∧
    fullTextOf c7FragD.childDivs = "Delhi 12 years in business".data := by
  decide

/-! ### The phone-number claim -/

theorem scanFirst_cons (f : List Char → Option (List Char)) (c : Char) (rest : List Char) :
    scanFirst f (c :: rest) =
      match f (c :: rest) with
      | some g => some g
      | none => scanFirst f rest := rfl

theorem scanFirst_some (f : List Char → Option (List Char)) :
    ∀ cs m, scanFirst f cs = some m → ∃ s, f s = some m := by
  intro cs
  induction cs with
  | nil => intro m h; exact ⟨[], h⟩
  | cons c rest ih =>
    intro m h
    rw [scanFirst_cons] at h
    cases hf : f (c :: rest) with
    | some g =>
      rw [hf] at h
      exact ⟨c :: rest, hf.trans h⟩
    | none =>
      rw [hf] at h
      exact ih m h

/-- A token produced by the phone regex: one of the three alternatives of
`\d{5}\s\d{5}|\d{10}|[0-9\s]{8,}`. -/
def phoneShape (m : List Char) : Bool :=
  isFiveWsFive m || isTenDigits m || (decide (8 ≤ m.length) && m.all isDigitOrWs)

theorem matchPhoneAt_shape (cs m : List Char) (h : matchPhoneAt cs = some m) :
    phoneShape m = true := by
  unfold matchPhoneAt at h
  by_cases h1 : isFiveWsFive (cs.take 11) = true
  · rw [if_pos h1] at h
    have hm := Option.some.inj h
    subst hm
    simp [phoneShape, h1]
  · rw [if_neg h1] at h
    by_cases h2 : isTenDigits (cs.take 10) = true
    · rw [if_pos h2] at h
      have hm := Option.some.inj h
      subst hm
      simp [phoneShape, h2]
    · rw [if_neg h2] at h
      simp only at h
      by_cases h3 : 8 ≤ (cs.takeWhile isDigitOrWs).length
      · rw [if_pos h3] at h
        have hm := Option.some.inj h
        subst hm
        simp [phoneShape, h3, List.all_takeWhile]
      · rw [if_neg h3] at h
        exact absurd h (by simp)

/-- Claim C4 (amended): the phone rule matches a grouped-digit token of
one of the three pattern shapes in the concatenated child text, accepts it
only when its whitespace-free (digits-only) form has at least 8
characters, and stores the matched text with its leading and trailing
whitespace stripped (interior whitespace preserved). -/
theorem c4_phone_rule (el : Fragment) (kw : String) (m : List Char)
    (hm : findPhone (fullTextOf el.childDivs) = some m) :
    phoneShape m = true ∧
    (8 ≤ (m.filter (fun c => !isPySpace c)).length →
      (parse_gmb_listing el kw).phoneNumber = some (String.mk (pyStripList m))) ∧
    ((m.filter (fun c => !isPySpace c)).length < 8 →
      (parse_gmb_listing el kw).phoneNumber = none) := by
  obtain ⟨s, hs⟩ := scanFirst_some matchPhoneAt (fullTextOf el.childDivs) m hm
  refine ⟨matchPhoneAt_shape s m hs, fun hlen => ?_, fun hlen => ?_⟩
  · show (childBlockFields el.childDivs).2.1 = _
    simp only [childBlockFields]
    rw [hm]
    exact if_pos hlen
  · show (childBlockFields el.childDivs).2.1 = _
    simp only [childBlockFields]
    rw [hm]
    exact if_neg (by omega)

def c4Frag : Fragment := ⟨none, none, ["ab 1234 5678"]⟩

/-- Claim C4, counterexample: in the child text "ab 1234 5678" the third
alternative matches the token " 1234 5678" with a leading space; the
stored Phone Number is the stripped "1234 5678", not the original
(unstripped) matched text. -/
theorem c4_counterexample :
    findPhone (fullTextOf c4Frag.childDivs) = some " 1234 5678".data ∧
    (parse_gmb_listing c4Frag "kw").phoneNumber = some "1234 5678" ∧
    (parse_gmb_listing c4Frag "kw").phoneNumber ≠ some " 1234 5678" := by
  decide

theorem c4_phone_rule_witness :
    (parse_gmb_listing c4Frag "kw").phoneNumber =
      some (String.mk (pyStripList " 1234 5678".data)) :=
  (c4_phone_rule c4Frag "kw" " 1234 5678".data (by decide)).2.1 (by decide)

end GMB
